import Mathlib

/-
Verification of the xdg-desktop-entry crate (a parser and serde serializer for
freedesktop `.desktop` files) against its natural-language specification.

The Rust sources `src/lib.rs` (nom-based grammar parser) and
`src/serde/ser.rs` (serde serializer) are shallowly embedded below.
Strings are `List Char`; nom's `IResult` is embedded as `PRes`, with
`err` standing for a recoverable `nom::Err::Error` (an `alt` tries the next
alternative) and `fail` for `nom::Err::Failure` produced by `cut`
(aborts the whole parse).  Rust panics (`Option::unwrap` on `None`,
`todo!()`, a byte slice outside a character boundary) are modelled
explicitly: `PRes` and the document-level result type `RRes` have a
`panicked` outcome, and the serializer entry point returns `Panics`.
Rust `f32` is abstracted by `F32`: ordinary finite literals are carried as
the exact rational value denoted by the decimal text (two equal rationals
round to the same `f32`, so every equality proved below also holds for the
rounded values), with separate constructors for the infinities and NaN.
-/

namespace Xdg

set_option maxRecDepth 40000

/-- Convert a Lean string literal to the character-list representation used
by the embedding. -/
def strL (s : String) : List Char := s.data

/-- Remaining input for the parsers. -/
abbrev Input := List Char

/-- Result of a nom parser: `ok rest val`, a recoverable `err`
(`nom::Err::Error`), a fatal `fail` (`nom::Err::Failure`, produced by
`cut`), or `panicked`, modelling a Rust panic raised while the parser ran
(the byte-slicing panic inside `parse_escaped_string`). -/
inductive PRes (α : Type) where
  | ok (rest : Input) (val : α)
  | err
  | fail
  | panicked
deriving DecidableEq, Repr

/-- Rust `char::is_ascii`. -/
def isAsciiChar (c : Char) : Bool := c.toNat ≤ 0x7F

/-- Rust `char::is_control` restricted to the Unicode Cc category:
U+0000..U+001F and U+007F..U+009F. -/
def isControlChar (c : Char) : Bool :=
  c.toNat < 0x20 || (0x7F ≤ c.toNat && c.toNat ≤ 0x9F)

/-- Characters allowed inside a group header (src/lib.rs line 208):
ASCII, not a control character, and not a square bracket. -/
def isHeaderChar (c : Char) : Bool :=
  isAsciiChar c && !isControlChar c && c != '[' && c != ']'

/-- Characters of a key fragment (src/lib.rs line 254):
ASCII alphanumeric or a dash. -/
def isKeyChar (c : Char) : Bool :=
  c.isAlpha || c.isDigit || c == '-'

/-- Horizontal whitespace recognized by nom `space0`/`space1`. -/
def isSpaceTab (c : Char) : Bool := c == ' ' || c == '\t'

/-- nom `char(c)`. -/
def charP (c : Char) (i : Input) : PRes Char :=
  match i with
  | [] => .err
  | c' :: rest => if c' = c then .ok rest c else .err

/-- nom `tag(t)`: match the literal `t` as a prefix of the input. -/
def tagP (t : List Char) (i : Input) : PRes (List Char) :=
  if t = i.take t.length then .ok (i.drop t.length) t else .err

/-- nom `tag_no_case(t)`: ASCII case-insensitive literal match. -/
def tagNoCase (t : List Char) (i : Input) : PRes (List Char) :=
  if (i.take t.length).map Char.toLower = t.map Char.toLower then
    .ok (i.drop t.length) (i.take t.length)
  else .err

/-- nom `line_ending`: a line feed or a carriage return followed by a line
feed. -/
def line_ending (i : Input) : PRes (List Char) :=
  match i with
  | '\n' :: rest => .ok rest ['\n']
  | '\r' :: '\n' :: rest => .ok rest ['\r', '\n']
  | _ => .err

/-- nom `not_line_ending`: the longest prefix without `\r` or `\n`; a
carriage return not followed by a line feed is an error. -/
def not_line_ending (i : Input) : PRes (List Char) :=
  let pre := i.takeWhile (fun c => c != '\r' && c != '\n')
  let rest := i.dropWhile (fun c => c != '\r' && c != '\n')
  match rest with
  | '\r' :: '\n' :: _ => .ok rest pre
  | '\r' :: _ => .err
  | _ => .ok rest pre

/-- nom `eof`: succeeds exactly on empty input, returning it. -/
def eofP (i : Input) : PRes Input :=
  match i with
  | [] => .ok [] []
  | _ => .err

/-- nom `space1`: one or more spaces or tabs. -/
def space1 (i : Input) : PRes (List Char) :=
  let s := i.takeWhile isSpaceTab
  if s.isEmpty then .err else .ok (i.dropWhile isSpaceTab) s

/-- nom `digit1`: one or more ASCII digits. -/
def digit1 (i : Input) : PRes (List Char) :=
  let s := i.takeWhile Char.isDigit
  if s.isEmpty then .err else .ok (i.dropWhile Char.isDigit) s

/-- Locale of a localized key (src/lib.rs lines 26-32). -/
structure Locale where
  lang : List Char
  country : Option (List Char)
  encoding : Option (List Char)
  modifier : Option (List Char)
deriving DecidableEq, Repr

/-- Key of an entry (src/lib.rs lines 17-24). -/
inductive Key where
  | Simple (key : List Char)
  | Localized (key : List Char) (locale : Locale)
deriving DecidableEq, Repr

/-- Greatest common divisor by structural recursion on a fuel bound, so
that it reduces inside the kernel. -/
def gcdAux : Nat → Nat → Nat → Nat
  | 0, _, n => n
  | _ + 1, 0, n => n
  | fuel + 1, m + 1, n => gcdAux fuel (n % (m + 1)) (m + 1)

/-- Greatest common divisor (`gcdAux` with enough fuel). -/
def natGcd (m n : Nat) : Nat := gcdAux (m + 1) m n

/-- A rational number in lowest terms with a positive denominator.  Two
decimal literals denote the same `f32` exactly when their exact rational
values round identically; equal rationals always do, and all finite
numeric values in this development are carried as exact rationals in this
canonical form, so structural equality below matches Rust `f32`
equality on them. -/
structure RatN where
  num : Int
  den : Nat
deriving DecidableEq, Repr

/-- Normalize a rational given as numerator and positive denominator. -/
def mkRatN (num : Int) (den : Nat) : RatN :=
  let g := natGcd num.natAbs den
  if g = 0 then { num := 0, den := 1 }
  else { num := num / (g : Int), den := den / g }

/-- Surrogate for Rust `f32` (see the header comment): finite values are
kept as the exact rational denoted by the parsed decimal text. -/
inductive F32 where
  | num (q : RatN)
  | inf
  | neginf
  | nan
deriving DecidableEq, Repr

/-- Value of an entry (src/lib.rs lines 34-42). -/
inductive Value where
  | String (s : List Char)
  | LocaleString (s : List Char)
  | Boolean (b : Bool)
  | Numeric (f : F32)
deriving DecidableEq, Repr

/-- One parsed line (src/lib.rs lines 46-52). -/
inductive Line where
  | Comment (text : List Char)
  | EmptyLine (white_space : Option (List Char))
  | GroupHeader (header : List Char)
  | Entry (key : Key) (v : Value)
deriving DecidableEq, Repr

/-- `EntryMap` (src/lib.rs line 73): an `IndexMap` from keys to values,
embedded as an association list in insertion order. -/
abbrev EntryMap := List (Key × Value)

/-- An open group during the fold (src/lib.rs lines 54-57). -/
structure Group where
  header : List Char
  entries : EntryMap
deriving DecidableEq, Repr

/-- The parsed document (src/lib.rs lines 66-71, without the optional
`keep-comments` feature): an `IndexMap` from header text to entry map. -/
structure DesktopEntry where
  groups : List (List Char × EntryMap)
deriving DecidableEq, Repr

/-- `IndexMap::insert`: when an equivalent key is present the stored key
and its position are kept and only the value is replaced; otherwise the
pair is appended at the end. -/
def indexInsert {κ ν : Type} [DecidableEq κ] (m : List (κ × ν)) (k : κ) (v : ν) :
    List (κ × ν) :=
  if m.any (fun p => decide (p.1 = k)) then
    m.map (fun p => if p.1 = k then (p.1, v) else p)
  else m ++ [(k, v)]

/-- src/lib.rs `parse_end_of_line`: a line ending or end of input. -/
def parse_end_of_line (i : Input) : PRes (List Char) :=
  match line_ending i with
  | .ok rest s => .ok rest s
  | _ =>
    match eofP i with
    | .ok rest s => .ok rest s
    | _ => .err

/-- src/lib.rs `parse_comment`: a `#` and the rest of the line, returned
literally including the `#`. -/
def parse_comment (i : Input) : PRes (List Char) :=
  match charP '#' i with
  | .ok i1 _ =>
    match not_line_ending i1 with
    | .ok i2 s => .ok i2 ('#' :: s)
    | .err => .err
    | .fail => .fail
    | .panicked => .panicked
  | _ => .err

/-- src/lib.rs `parse_empty_line`: whitespace followed by a peeked line
ending, or a peeked line ending directly. -/
def parse_empty_line (i : Input) : PRes (Option (List Char)) :=
  match space1 i with
  | .ok i1 ws =>
    match parse_end_of_line i1 with
    | .ok _ _ => .ok i1 (some ws)
    | _ =>
      match line_ending i with
      | .ok _ _ => .ok i none
      | _ => .err
  | _ =>
    match line_ending i with
    | .ok _ _ => .ok i none
    | _ => .err

/-- src/lib.rs `parse_group_header`: `[`, one or more header characters
(`cut`: missing content is fatal), and a closing `]` (`cut`: an open
bracket that is not closed is fatal). -/
def parse_group_header (i : Input) : PRes (List Char) :=
  match charP '[' i with
  | .ok i1 _ =>
    let content := i1.takeWhile isHeaderChar
    if content.isEmpty then .fail
    else
      match charP ']' (i1.dropWhile isHeaderChar) with
      | .ok i2 _ => .ok i2 content
      | _ => .fail
  | _ => .err

/-- src/lib.rs `parse_key_part`: one or more key characters. -/
def parse_key_part (i : Input) : PRes (List Char) :=
  let s := i.takeWhile isKeyChar
  if s.isEmpty then .err else .ok (i.dropWhile isKeyChar) s

/-- `opt(preceded(char c, parse_key_part))` used by `parse_key_locale`;
on failure nothing is consumed and `none` is returned. -/
def optSepKeyPart (c : Char) (i : Input) : Input × Option (List Char) :=
  match charP c i with
  | .ok i1 _ =>
    match parse_key_part i1 with
    | .ok i2 s => (i2, some s)
    | _ => (i, none)
  | _ => (i, none)

/-- src/lib.rs `parse_key_locale`: `lang[_country][.encoding][@modifier]`. -/
def parse_key_locale (i : Input) : PRes Locale :=
  match parse_key_part i with
  | .ok i1 lang =>
    let (i2, country) := optSepKeyPart '_' i1
    let (i3, encoding) := optSepKeyPart '.' i2
    let (i4, modifier) := optSepKeyPart '@' i3
    .ok i4 { lang := lang, country := country, encoding := encoding, modifier := modifier }
  | _ => .err

/-- src/lib.rs `parse_key`: a key fragment with an optional bracketed
locale. -/
def parse_key (i : Input) : PRes Key :=
  match parse_key_part i with
  | .ok i1 k =>
    match charP '[' i1 with
    | .ok i2 _ =>
      match parse_key_locale i2 with
      | .ok i3 loc =>
        match charP ']' i3 with
        | .ok i4 _ => .ok i4 (.Localized k loc)
        | _ => .ok i1 (.Simple k)
      | _ => .ok i1 (.Simple k)
    | _ => .ok i1 (.Simple k)
  | .err => .err
  | .fail => .fail
  | .panicked => .panicked

/-- src/lib.rs `escaped_chars`: the escape table. -/
def escaped_chars (c : Char) : Option (List Char) :=
  match c with
  | 's' => some [' ']
  | 'n' => some ['\n']
  | 't' => some ['\t']
  | 'r' => some ['\r']
  | '\\' => some ['\\']
  | ';' => some [';']
  | _ => none

/-- The second loop of src/lib.rs `parse_escaped_string` (lines 306-320):
one pass over the remaining text, expanding every escape and failing on a
backslash followed by an invalid character or by nothing. -/
def decode_tail : List Char → Option (List Char)
  | [] => some []
  | '\\' :: rest =>
    match rest with
    | [] => none
    | c :: rest' =>
      match escaped_chars c with
      | some e => (decode_tail rest').map (fun d => e ++ d)
      | none => none
  | c :: rest => (decode_tail rest).map (fun d => c :: d)

/-- Number of bytes a character occupies in UTF-8 (Rust `char::len_utf8`). -/
def charUtf8Size (c : Char) : Nat :=
  if c.toNat < 0x80 then 1
  else if c.toNat < 0x800 then 2
  else if c.toNat < 0x10000 then 3
  else 4

/-- The byte slice `&s[..n]` of the UTF-8 encoding of `s`, as characters:
`none` models the Rust panic when `n` is not a character boundary or is
out of range. -/
def takeBytes : List Char → Nat → Option (List Char)
  | _, 0 => some []
  | [], _ + 1 => none
  | c :: rest, n + 1 =>
    if charUtf8Size c ≤ n + 1 then
      (takeBytes rest (n + 1 - charUtf8Size c)).map (fun p => c :: p)
    else none

/-- The byte slice `&s[n..]` of the UTF-8 encoding of `s`, as characters:
`none` models the Rust panic when `n` is not a character boundary or is
out of range. -/
def dropBytes : List Char → Nat → Option (List Char)
  | s, 0 => some s
  | [], _ + 1 => none
  | c :: rest, n + 1 =>
    if charUtf8Size c ≤ n + 1 then dropBytes rest (n + 1 - charUtf8Size c)
    else none

/-- src/lib.rs `parse_escaped_string` (lines 287-327): scan the characters
for the first backslash, remembering its position `i` in the
`chars().enumerate()` stream - a character count.  A backslash followed by
no character or an invalid escape character is a recoverable error,
raised before any slicing.  On a valid escape the code splices
`&input[..i]` and then decodes `&input[i + 2..]` with the second loop,
using `i` as a byte index into the UTF-8 buffer although it counts
characters: when a character before the first backslash is not ASCII the
slice panics on a non-character boundary, or lands on the wrong boundary
and corrupts the decoded text.  The whole input is consumed on success. -/
def parse_escaped_string (input : Input) : PRes (List Char) :=
  let pre := input.takeWhile (fun c => c != '\\')
  match input.dropWhile (fun c => c != '\\') with
  | [] => .ok [] input
  | _ :: rest =>
    match rest with
    | [] => .err
    | c :: _ =>
      match escaped_chars c with
      | none => .err
      | some e =>
        match takeBytes input pre.length with
        | none => .panicked
        | some preBytes =>
          match dropBytes input (pre.length + 2) with
          | none => .panicked
          | some restBytes =>
            match decode_tail restBytes with
            | some tail => .ok [] (preBytes ++ e ++ tail)
            | none => .err

/-- src/lib.rs `parse_string`: the rest of the line, escape-decoded
(`cut`: a bad escape is fatal) and verified to be ASCII (a non-ASCII
result is a recoverable error). -/
def parse_string (i : Input) : PRes (List Char) :=
  match not_line_ending i with
  | .ok rest line =>
    match parse_escaped_string line with
    | .ok _ s => if s.all isAsciiChar then .ok rest s else .err
    | .err => .fail
    | .fail => .fail
    | .panicked => .panicked
  | .err => .err
  | .fail => .fail
  | .panicked => .panicked

/-- src/lib.rs `parse_local_string`: like `parse_string` but without the
ASCII restriction. -/
def parse_local_string (i : Input) : PRes (List Char) :=
  match not_line_ending i with
  | .ok rest line =>
    match parse_escaped_string line with
    | .ok _ s => .ok rest s
    | .err => .fail
    | .fail => .fail
    | .panicked => .panicked
  | .err => .err
  | .fail => .fail
  | .panicked => .panicked

/-- src/lib.rs `parse_boolean`: `map_parser(not_line_ending, alt(tag true,
tag false))`; nom `map_parser` discards whatever the inner parser leaves
unconsumed. -/
def parse_boolean (i : Input) : PRes Bool :=
  match not_line_ending i with
  | .ok rest line =>
    match tagP (strL "true") line with
    | .ok _ _ => .ok rest true
    | .fail => .fail
    | .panicked => .panicked
    | .err =>
      match tagP (strL "false") line with
      | .ok _ _ => .ok rest false
      | .fail => .fail
      | .panicked => .panicked
      | .err => .err
  | .err => .err
  | .fail => .fail
  | .panicked => .panicked

/-- The exponent part of nom `recognize_float`: `opt(e/E, opt sign,
cut(digit1))`; missing exponent digits after an `e` are fatal. -/
def floatExponent (pre : List Char) (i : Input) : PRes (List Char) :=
  match i with
  | c :: r =>
    if c = 'e' ∨ c = 'E' then
      let (r1, sign) : Input × List Char :=
        match r with
        | '+' :: r' => (r', ['+'])
        | '-' :: r' => (r', ['-'])
        | _ => (r, [])
      match digit1 r1 with
      | .ok r2 d => .ok r2 (pre ++ c :: (sign ++ d))
      | _ => .fail
    else .ok i pre
  | [] => .ok i pre

/-- nom `recognize_float`: optional sign, then digits with an optional
fraction or a leading dot with digits, then an optional exponent. -/
def recognize_float (i : Input) : PRes (List Char) :=
  let (i1, sign) : Input × List Char :=
    match i with
    | '+' :: r => (r, ['+'])
    | '-' :: r => (r, ['-'])
    | _ => (i, [])
  match digit1 i1 with
  | .ok i2 d =>
    let (i3, mid) : Input × List Char :=
      match i2 with
      | '.' :: r =>
        match digit1 r with
        | .ok r2 f => (r2, '.' :: f)
        | _ => (r, ['.'])
      | _ => (i2, [])
    floatExponent (sign ++ d ++ mid) i3
  | _ =>
    match i1 with
    | '.' :: r =>
      match digit1 r with
      | .ok r2 f => floatExponent (sign ++ '.' :: f) r2
      | _ => .err
    | _ => .err

/-- nom `recognize_float_or_exceptions`: `recognize_float` or the
case-insensitive literals `nan`, `inf`, `infinity`. -/
def recognize_float_or_exceptions (i : Input) : PRes (List Char) :=
  match recognize_float i with
  | .ok r s => .ok r s
  | .fail => .fail
  | .panicked => .panicked
  | .err =>
    match tagNoCase (strL "nan") i with
    | .ok r s => .ok r s
    | _ =>
      match tagNoCase (strL "inf") i with
      | .ok r s => .ok r s
      | _ =>
        match tagNoCase (strL "infinity") i with
        | .ok r s => .ok r s
        | _ => .err

/-- Numeric value of a digit string. -/
def digitsToNat (ds : List Char) : Nat :=
  ds.foldl (fun a c => a * 10 + (c.toNat - 48)) 0

/-- Exact rational denoted by a decimal literal with optional fraction and
exponent. -/
def decimalToRat (neg : Bool) (intDs fracDs : List Char) (negExp : Bool)
    (expDs : List Char) : RatN :=
  let mant : Nat := digitsToNat (intDs ++ fracDs)
  let e : Nat := digitsToNat expDs
  let num : Nat := if negExp then mant else mant * 10 ^ e
  let den : Nat := if negExp then 10 ^ fracDs.length * 10 ^ e else 10 ^ fracDs.length
  mkRatN (if neg then -(num : Int) else (num : Int)) den

/-- Rust `str::parse::<f32>` on the text recognized by the float parser,
with rounding abstracted away (see `F32`). -/
def str_to_f32 (s : List Char) : Option F32 :=
  let (neg, s1) : Bool × List Char :=
    match s with
    | '-' :: r => (true, r)
    | '+' :: r => (false, r)
    | _ => (false, s)
  let low := s1.map Char.toLower
  if low = strL "inf" ∨ low = strL "infinity" then
    some (if neg then F32.neginf else F32.inf)
  else if low = strL "nan" then some F32.nan
  else
    let intDs := s1.takeWhile Char.isDigit
    let r1 := s1.drop intDs.length
    let (fracDs, r2) : List Char × List Char :=
      match r1 with
      | '.' :: t => (t.takeWhile Char.isDigit, t.drop (t.takeWhile Char.isDigit).length)
      | _ => ([], r1)
    if intDs.isEmpty && fracDs.isEmpty then none
    else
      match r2 with
      | [] => some (F32.num (decimalToRat neg intDs fracDs false []))
      | c :: t =>
        if c = 'e' ∨ c = 'E' then
          let (negExp, t1) : Bool × List Char :=
            match t with
            | '-' :: u => (true, u)
            | '+' :: u => (false, u)
            | _ => (false, t)
          let expDs := t1.takeWhile Char.isDigit
          if expDs.isEmpty ∨ (t1.drop expDs.length).isEmpty = false then none
          else some (F32.num (decimalToRat neg intDs fracDs negExp expDs))
        else none

/-- nom `float`: recognize the float text and convert it. -/
def floatP (i : Input) : PRes F32 :=
  match recognize_float_or_exceptions i with
  | .ok rest s =>
    match str_to_f32 s with
    | some f => .ok rest f
    | none => .err
  | .err => .err
  | .fail => .fail
  | .panicked => .panicked

/-- src/lib.rs `parse_numeric`: `map_parser(not_line_ending, float)`; the
inner leftover is discarded. -/
def parse_numeric (i : Input) : PRes F32 :=
  match not_line_ending i with
  | .ok rest line =>
    match floatP line with
    | .ok _ f => .ok rest f
    | .err => .err
    | .fail => .fail
    | .panicked => .panicked
  | .err => .err
  | .fail => .fail
  | .panicked => .panicked

/-- src/lib.rs `parse_value`: the alternatives Boolean, Numeric, String,
LocaleString in this order; a `fail` aborts the whole alternation. -/
def parse_value (i : Input) : PRes Value :=
  match parse_boolean i with
  | .ok i1 b => .ok i1 (.Boolean b)
  | .fail => .fail
  | .panicked => .panicked
  | .err =>
    match parse_numeric i with
    | .ok i1 f => .ok i1 (.Numeric f)
    | .fail => .fail
    | .panicked => .panicked
    | .err =>
      match parse_string i with
      | .ok i1 s => .ok i1 (.String s)
      | .fail => .fail
      | .panicked => .panicked
      | .err =>
        match parse_local_string i with
        | .ok i1 s => .ok i1 (.LocaleString s)
        | .fail => .fail
        | .panicked => .panicked
        | .err => .err

/-- src/lib.rs `parse_entry`: a key, `=` surrounded by optional horizontal
whitespace, and a value. -/
def parse_entry (i : Input) : PRes (Key × Value) :=
  match parse_key i with
  | .ok i1 k =>
    let i2 := i1.dropWhile isSpaceTab
    match charP '=' i2 with
    | .ok i3 _ =>
      let i4 := i3.dropWhile isSpaceTab
      match parse_value i4 with
      | .ok i5 v => .ok i5 (k, v)
      | .err => .err
      | .fail => .fail
      | .panicked => .panicked
    | _ => .err
  | .err => .err
  | .fail => .fail
  | .panicked => .panicked

/-- src/lib.rs `parse_line`: comment, group header, entry or empty line (in
this priority order), terminated by a line ending or end of input. -/
def parse_line (i : Input) : PRes Line :=
  let core : PRes Line :=
    match parse_comment i with
    | .ok i1 s => .ok i1 (.Comment s)
    | .fail => .fail
    | .panicked => .panicked
    | .err =>
      match parse_group_header i with
      | .ok i1 s => .ok i1 (.GroupHeader s)
      | .fail => .fail
      | .panicked => .panicked
      | .err =>
        match parse_entry i with
        | .ok i1 kv => .ok i1 (.Entry kv.1 kv.2)
        | .fail => .fail
        | .panicked => .panicked
        | .err =>
          match parse_empty_line i with
          | .ok i1 ws => .ok i1 (.EmptyLine ws)
          | .fail => .fail
          | .panicked => .panicked
          | .err => .err
  match core with
  | .ok i1 line =>
    match parse_end_of_line i1 with
    | .ok i2 _ => .ok i2 line
    | _ => .err
  | .err => .err
  | .fail => .fail
  | .panicked => .panicked

/-- Document-level result: like `PRes` with an additional `panicked`
outcome modelling a Rust panic. -/
inductive RRes (α : Type) where
  | ok (rest : Input) (val : α)
  | err
  | fail
  | panicked
deriving DecidableEq, Repr

/-- src/lib.rs `map_document_line` (the variant without the
`keep-comments` feature): fold one parsed line into the accumulator.
`none` models the panic of `group.as_mut().unwrap()` when an entry
arrives while no group is open. -/
def map_document_line (acc : DesktopEntry × Option Group × Nat) (line : Line) :
    Option (DesktopEntry × Option Group × Nat) :=
  let (document, group, count) := acc
  match line with
  | .GroupHeader header =>
    match group with
    | some g =>
      some ({ groups := indexInsert document.groups g.header g.entries },
        some { header := header, entries := [] }, count + 1)
    | none => some (document, some { header := header, entries := [] }, count + 1)
  | .Entry key v =>
    match group with
    | some g =>
      some (document, some { g with entries := indexInsert g.entries key v }, count + 1)
    | none => none
  | .Comment _ => some (document, group, count + 1)
  | .EmptyLine _ => some (document, group, count + 1)

/-- The `fold_many0(verify(parse_line, ..), .., map_document_line)` loop of
src/lib.rs `parse_desktop_entry`.  `hasEntry` is the `has_entry` cell,
mutated by the `verify` predicate; the fold stops on a recoverable parse
error or a failed verification, aborts on a fatal error, checks that each
iteration consumed input (nom `fold_many0` errors otherwise), and
propagates the panic of `map_document_line`.  The fuel is an upper bound
on the number of iterations; `parse_desktop_entry` passes one more than
the input length, which can never be exhausted since every iteration
consumes at least one character. -/
def foldLoop : Nat → Input → Bool → (DesktopEntry × Option Group × Nat) →
    RRes (DesktopEntry × Option Group × Nat)
  | 0, _, _, _ => .err
  | fuel + 1, i, hasEntry, acc =>
    match parse_line i with
    | .err => .ok i acc
    | .fail => .fail
    | .panicked => .panicked
    | .ok i1 line =>
      let pass : Bool :=
        match line with
        | .GroupHeader _ => true
        | .Entry _ _ => hasEntry
        | _ => true
      let hasEntry' : Bool :=
        match line with
        | .GroupHeader _ => true
        | _ => hasEntry
      if pass = false then .ok i acc
      else if i1.length = i.length then .err
      else
        match map_document_line acc line with
        | some acc' => foldLoop fuel i1 hasEntry' acc'
        | none => .panicked

/-- src/lib.rs `parse_desktop_entry`: fold all lines (with the `has_entry`
cell initialized to `true`), commit the group left open at the end, and
require end of input. -/
def parse_desktop_entry (input : Input) : RRes DesktopEntry :=
  match foldLoop (input.length + 1) input true ({ groups := [] }, none, 0) with
  | .ok rest (document, group, _count) =>
    let document :=
      match group with
      | some g => { groups := indexInsert document.groups g.header g.entries }
      | none => document
    match eofP rest with
    | .ok rest2 _ => .ok rest2 document
    | _ => .err
  | .err => .err
  | .fail => .fail
  | .panicked => .panicked

/-- Modelled from the spec: the serializer error type lives in
`src/serde/error.rs`, which is not part of the provided sources; the
variants are the ones used by `src/serde/ser.rs`, its tests and the spec
(`ExpectedMap`, `UnsupportedType`, `NestingNotSupported`). -/
inductive SerError where
  | ExpectedMap
  | UnsupportedType
  | NestingNotSupported
deriving DecidableEq, Repr

/-- src/serde/ser.rs `emit_new_line`. -/
def emit_new_line (output : List Char) : List Char := output ++ ['\n']

/-- src/serde/ser.rs `emit_header`. -/
def emit_header (output : List Char) (header : List Char) : List Char :=
  output ++ '[' :: header ++ [']']

/-- src/serde/ser.rs `emit_key`. -/
def emit_key (output : List Char) (key : List Char) : List Char :=
  output ++ key ++ ['=']

namespace HeaderMapSerializer

/-- src/serde/ser.rs line 61: a root bool is rejected. -/
def serialize_bool (_output : List Char) (_v : Bool) : Except SerError (List Char) :=
  .error .ExpectedMap

/-- src/serde/ser.rs line 65: a root i8 is rejected. -/
def serialize_i8 (_output : List Char) (_v : Int) : Except SerError (List Char) :=
  .error .ExpectedMap

/-- src/serde/ser.rs line 69: a root i16 is rejected. -/
def serialize_i16 (_output : List Char) (_v : Int) : Except SerError (List Char) :=
  .error .ExpectedMap

/-- src/serde/ser.rs line 73: a root i32 is rejected. -/
def serialize_i32 (_output : List Char) (_v : Int) : Except SerError (List Char) :=
  .error .ExpectedMap

/-- src/serde/ser.rs line 77: a root i64 is rejected. -/
def serialize_i64 (_output : List Char) (_v : Int) : Except SerError (List Char) :=
  .error .ExpectedMap

/-- src/serde/ser.rs line 81: a root u8 is rejected. -/
def serialize_u8 (_output : List Char) (_v : Nat) : Except SerError (List Char) :=
  .error .ExpectedMap

/-- src/serde/ser.rs line 85: a root u16 is rejected. -/
def serialize_u16 (_output : List Char) (_v : Nat) : Except SerError (List Char) :=
  .error .ExpectedMap

/-- src/serde/ser.rs line 89: a root u32 is rejected. -/
def serialize_u32 (_output : List Char) (_v : Nat) : Except SerError (List Char) :=
  .error .ExpectedMap

/-- src/serde/ser.rs line 93: a root u64 is rejected. -/
def serialize_u64 (_output : List Char) (_v : Nat) : Except SerError (List Char) :=
  .error .ExpectedMap

/-- src/serde/ser.rs line 97: a root f32 is rejected. -/
def serialize_f32 (_output : List Char) (_v : F32) : Except SerError (List Char) :=
  .error .ExpectedMap

/-- src/serde/ser.rs line 101: a root f64 is rejected. -/
def serialize_f64 (_output : List Char) (_v : F32) : Except SerError (List Char) :=
  .error .ExpectedMap

/-- src/serde/ser.rs line 105: a root char is rejected. -/
def serialize_char (_output : List Char) (_v : Char) : Except SerError (List Char) :=
  .error .ExpectedMap

/-- src/serde/ser.rs line 109: a root string is rejected. -/
def serialize_str (_output : List Char) (_v : List Char) : Except SerError (List Char) :=
  .error .ExpectedMap

/-- src/serde/ser.rs line 113: root bytes are rejected. -/
def serialize_bytes (_output : List Char) (_v : List Nat) : Except SerError (List Char) :=
  .error .ExpectedMap

/-- src/serde/ser.rs line 128: a root unit is accepted and writes
nothing. -/
def serialize_unit (output : List Char) : Except SerError (List Char) :=
  .ok output

/-- src/serde/ser.rs line 117: a root `None` delegates to
`serialize_unit`. -/
def serialize_none (output : List Char) : Except SerError (List Char) :=
  serialize_unit output

/-- src/serde/ser.rs line 132: a root unit struct emits only its header. -/
def serialize_unit_struct (output : List Char) (name : List Char) :
    Except SerError (List Char) :=
  .ok (emit_header output name)

/-- src/serde/ser.rs line 138: a root unit enum variant is rejected. -/
def serialize_unit_variant (_output : List Char) (_name : List Char)
    (_variant_index : Nat) (_variant : List Char) : Except SerError (List Char) :=
  .error .ExpectedMap

end HeaderMapSerializer

/-- Outcome of a Rust call that may panic. -/
inductive Panics (α : Type) where
  | panics
  | returns (a : α)
deriving DecidableEq, Repr

/-- src/serde/ser.rs line 1174 `to_string`: the body of the function in the
source is `todo!()`, which panics unconditionally for every value. -/
def to_string {T : Type} (_value : T) : Panics (Except SerError (List Char)) :=
  .panics

/-- The canonical round-trip fixture of the spec (section 6). -/
def exampleText : List Char :=
  strL ("[Desktop Entry]\nVersion=1.0\nType=Application\nName=Foo Viewer\n" ++
    "Comment=The best viewer for Foo objects available!\nTryExec=fooview\n" ++
    "Exec=fooview %F\nIcon=fooview\nMimeType=image/x-foo\nActions=Gallery;Create;\n" ++
    "\n[Desktop Action Gallery]\nExec=fooview --gallery\nName=Browse Gallery\n" ++
    "\n[Desktop Action Create]\nExec=fooview --create-new\nName=Create a new Foo!\n")

/-- The document the fixture parses to: three groups in file order,
`Version` numeric, everything else a plain string. -/
def exampleDoc : DesktopEntry :=
  { groups :=
      [(strL "Desktop Entry",
        [(Key.Simple (strL "Version"), Value.Numeric (F32.num { num := 1, den := 1 })),
         (Key.Simple (strL "Type"), Value.String (strL "Application")),
         (Key.Simple (strL "Name"), Value.String (strL "Foo Viewer")),
         (Key.Simple (strL "Comment"),
           Value.String (strL "The best viewer for Foo objects available!")),
         (Key.Simple (strL "TryExec"), Value.String (strL "fooview")),
         (Key.Simple (strL "Exec"), Value.String (strL "fooview %F")),
         (Key.Simple (strL "Icon"), Value.String (strL "fooview")),
         (Key.Simple (strL "MimeType"), Value.String (strL "image/x-foo")),
         (Key.Simple (strL "Actions"), Value.String (strL "Gallery;Create;"))]),
       (strL "Desktop Action Gallery",
        [(Key.Simple (strL "Exec"), Value.String (strL "fooview --gallery")),
         (Key.Simple (strL "Name"), Value.String (strL "Browse Gallery"))]),
       (strL "Desktop Action Create",
        [(Key.Simple (strL "Exec"), Value.String (strL "fooview --create-new")),
         (Key.Simple (strL "Name"), Value.String (strL "Create a new Foo!"))])] }

/-- The input is a sequence of lines each accepted by `parse_line`,
ending exactly at the end of input. -/
inductive LinesAllMatch : Input → Prop
  | nil : LinesAllMatch []
  | cons (i rest : Input) (l : Line) :
      parse_line i = .ok rest l → LinesAllMatch rest → LinesAllMatch i

/-! Helper lemmas about `indexInsert`, the embedded `IndexMap::insert`. -/

theorem any_key_iff {κ ν : Type} [DecidableEq κ] (m : List (κ × ν)) (k : κ) :
    m.any (fun p => decide (p.1 = k)) = true ↔ k ∈ m.map Prod.fst := by
  simp [List.any_eq_true, List.mem_map]

theorem indexInsert_of_mem {κ ν : Type} [DecidableEq κ] {m : List (κ × ν)} {k : κ}
    (v : ν) (h : k ∈ m.map Prod.fst) :
    indexInsert m k v = m.map (fun p => if p.1 = k then (p.1, v) else p) := by
  rw [indexInsert, if_pos ((any_key_iff m k).mpr h)]

theorem indexInsert_of_not_mem {κ ν : Type} [DecidableEq κ] {m : List (κ × ν)} {k : κ}
    (v : ν) (h : k ∉ m.map Prod.fst) :
    indexInsert m k v = m ++ [(k, v)] := by
  rw [indexInsert, if_neg]
  intro hc
  exact h ((any_key_iff m k).mp hc)

theorem map_fst_upd {κ ν : Type} [DecidableEq κ] (m : List (κ × ν)) (k : κ) (v : ν) :
    (m.map (fun p => if p.1 = k then (p.1, v) else p)).map Prod.fst = m.map Prod.fst := by
  induction m with
  | nil => rfl
  | cons p rest ih =>
    by_cases h : p.1 = k <;> simp [h, ih]

theorem map_fst_indexInsert_of_mem {κ ν : Type} [DecidableEq κ] {m : List (κ × ν)} {k : κ}
    (v : ν) (h : k ∈ m.map Prod.fst) :
    (indexInsert m k v).map Prod.fst = m.map Prod.fst := by
  rw [indexInsert_of_mem v h, map_fst_upd]

theorem mem_map_fst_indexInsert {κ ν : Type} [DecidableEq κ] (m : List (κ × ν)) (k : κ)
    (v : ν) : k ∈ (indexInsert m k v).map Prod.fst := by
  by_cases h : k ∈ m.map Prod.fst
  · rw [map_fst_indexInsert_of_mem v h]
    exact h
  · rw [indexInsert_of_not_mem v h]
    simp

theorem nodup_map_fst_indexInsert {κ ν : Type} [DecidableEq κ] {m : List (κ × ν)} {k : κ}
    (v : ν) (hnd : (m.map Prod.fst).Nodup) :
    ((indexInsert m k v).map Prod.fst).Nodup := by
  by_cases h : k ∈ m.map Prod.fst
  · rw [map_fst_indexInsert_of_mem v h]
    exact hnd
  · rw [indexInsert_of_not_mem v h]
    simp [List.nodup_append, List.disjoint_singleton, hnd, h]

theorem filter_key_eq_nil {κ ν : Type} [DecidableEq κ] {m : List (κ × ν)} {k : κ}
    (h : k ∉ m.map Prod.fst) :
    m.filter (fun p => decide (p.1 = k)) = [] := by
  induction m with
  | nil => rfl
  | cons p rest ih =>
    simp only [List.map_cons, List.mem_cons, not_or] at h
    have hp : p.1 ≠ k := fun he => h.1 he.symm
    simp [List.filter_cons, hp, ih h.2]

theorem filter_key_upd {κ ν : Type} [DecidableEq κ] {m : List (κ × ν)} {k : κ} (v : ν)
    (hnd : (m.map Prod.fst).Nodup) (hmem : k ∈ m.map Prod.fst) :
    (m.map (fun p => if p.1 = k then (p.1, v) else p)).filter
      (fun p => decide (p.1 = k)) = [(k, v)] := by
  induction m with
  | nil => cases hmem
  | cons p rest ih =>
    simp only [List.map_cons, List.nodup_cons] at hnd
    by_cases h : p.1 = k
    · subst h
    -- the head is the unique occurrence: the tail holds no key equal to it
      have htail : p.1 ∉ (rest.map (fun q => if q.1 = p.1 then (q.1, v) else q)).map Prod.fst := by
        rw [map_fst_upd]
        exact hnd.1
      simp [List.filter_cons, filter_key_eq_nil htail]
    · have hmem' : k ∈ rest.map Prod.fst := by
        rcases List.mem_cons.mp hmem with he | hm
        · exact absurd he.symm h
        · exact hm
      simp [List.filter_cons, h, ih hnd.2 hmem']

theorem filter_ne_upd {κ ν : Type} [DecidableEq κ] (m : List (κ × ν)) (k : κ) (v : ν) :
    (m.map (fun p => if p.1 = k then (p.1, v) else p)).filter
      (fun p => !decide (p.1 = k)) = m.filter (fun p => !decide (p.1 = k)) := by
  induction m with
  | nil => rfl
  | cons p rest ih =>
    by_cases h : p.1 = k <;> simp [List.filter_cons, h, ih]

theorem findIdx_upd {κ ν : Type} [DecidableEq κ] (m : List (κ × ν)) (k : κ) (v : ν) :
    (m.map (fun p => if p.1 = k then (p.1, v) else p)).findIdx
      (fun p => decide (p.1 = k)) = m.findIdx (fun p => decide (p.1 = k)) := by
  induction m with
  | nil => rfl
  | cons p rest ih =>
    by_cases h : p.1 = k <;> simp [List.findIdx_cons, h, ih]

/-! Helper lemmas about character scans and literal tags. -/

theorem takeWhile_all_eq {p : Char → Bool} {k : List Char} (hk : k.all p = true) :
    k.takeWhile p = k ∧ k.dropWhile p = [] := by
  induction k with
  | nil => exact ⟨rfl, rfl⟩
  | cons c rest ih =>
    simp only [List.all_cons, Bool.and_eq_true] at hk
    simp [List.takeWhile_cons, List.dropWhile_cons, hk.1, ih hk.2]

theorem takeWhile_append_stop {p : Char → Bool} {k : List Char} {c : Char}
    (rest : List Char) (hk : k.all p = true) (hc : p c = false) :
    (k ++ c :: rest).takeWhile p = k ∧ (k ++ c :: rest).dropWhile p = c :: rest := by
  induction k with
  | nil => simp [List.takeWhile_cons, List.dropWhile_cons, hc]
  | cons a k2 ih =>
    simp only [List.all_cons, Bool.and_eq_true] at hk
    simp [List.takeWhile_cons, List.dropWhile_cons, hk.1, ih hk.2]

theorem tagP_of_append (t s : List Char) : tagP t (t ++ s) = .ok s t := by
  simp [tagP]

theorem tagP_ok_elim {t i r m : List Char} (h : tagP t i = .ok r m) :
    i = t ++ r ∧ m = t := by
  rw [tagP] at h
  split at h
  · rename_i h'
    injection h with h1 h2
    subst h1
    subst h2
    have hta := List.take_append_drop t.length i
    rw [← h'] at hta
    exact ⟨hta.symm, rfl⟩
  · cases h

theorem tagP_err_of_no_prefix {t i : List Char} (h : ∀ s, i ≠ t ++ s) :
    tagP t i = .err := by
  rw [tagP]
  split
  · rename_i h'
    have hta := List.take_append_drop t.length i
    rw [← h'] at hta
    exact absurd hta.symm (h (i.drop t.length))
  · rfl

/-! The claims. -/

/-- Claim C1 (code bug): the spec's round-trip property cannot hold because
the serde serializer entry point `to_string` is `todo` in the source and
panics for every value.  The canonical fixture parses to the expected
three-group document, but serializing that document panics instead of
reproducing the text. -/
theorem spec_C1_to_string_panics :
    parse_desktop_entry exampleText = .ok [] exampleDoc
    ∧ to_string exampleDoc = Panics.panics
    ∧ ∀ out, to_string exampleDoc ≠ Panics.returns out := by
  refine ⟨by decide, rfl, ?_⟩
  intro out h
  exact Panics.noConfusion h

/-- Claim C2 (code bug): an input whose first non-comment, non-blank line
is an entry line does not produce a parse error; the `has_entry` cell is
initialized to `true`, so the line-level check accepts the entry and the
fold panics unwrapping the missing current group. -/
theorem spec_C2_leading_entry_panics :
    parse_desktop_entry (strL "Key=Value") = .panicked
    ∧ parse_desktop_entry (strL "# comment\n\nKey=Value") = .panicked := by
  constructor
  · decide
  · decide

/-- Claim C3 counterexample: re-declaring the header `A` after group `B`
does not keep both declarations as distinct groups: the parsed document
has two groups, not three, with `A` still first (its entries replaced by
the later declaration's), because `IndexMap::insert` overwrites in place. -/
theorem spec_C3_counterexample :
    parse_desktop_entry (strL "[A]\nx=a\n[B]\ny=b\n[A]\nz=c") =
      .ok [] { groups := [(strL "A", [(Key.Simple (strL "z"), Value.String (strL "c"))]),
                          (strL "B", [(Key.Simple (strL "y"), Value.String (strL "b"))])] }
    ∧ (match parse_desktop_entry (strL "[A]\nx=a\n[B]\ny=b\n[A]\nz=c") with
       | .ok _ doc => doc.groups.length
       | _ => 0) = 2 := by
  constructor
  · decide
  · decide

/-- Claim C3 as amended: committing a group whose header is already present
keeps the header order unchanged (no new trailing group) and replaces the
entries stored under that header in place; end to end, re-declaring `G`
leaves two groups with `G` first, carrying the later declaration's
entries. -/
theorem spec_C3_amended_thm (g : List (List Char × EntryMap)) (h : List Char)
    (em : EntryMap) (hnd : (g.map Prod.fst).Nodup) (hmem : h ∈ g.map Prod.fst) :
    (indexInsert g h em).map Prod.fst = g.map Prod.fst
    ∧ (indexInsert g h em).filter (fun p => decide (p.1 = h)) = [(h, em)]
    ∧ parse_desktop_entry (strL "[G]\np=q\n[H]\nr=s\n[G]\nt=u") =
        .ok [] { groups :=
          [(strL "G", [(Key.Simple (strL "t"), Value.String (strL "u"))]),
           (strL "H", [(Key.Simple (strL "r"), Value.String (strL "s"))])] } := by
  refine ⟨map_fst_indexInsert_of_mem em hmem, ?_, by decide⟩
  rw [indexInsert_of_mem em hmem]
  exact filter_key_upd em hnd hmem

/-- Witness for the amended claim C3 at a concrete document. -/
theorem spec_C3_amended_witness :
    (indexInsert [(strL "G", ([] : EntryMap))] (strL "G")
        [(Key.Simple (strL "t"), Value.String (strL "u"))]).map Prod.fst =
      [(strL "G", ([] : EntryMap))].map Prod.fst
    ∧ (indexInsert [(strL "G", ([] : EntryMap))] (strL "G")
        [(Key.Simple (strL "t"), Value.String (strL "u"))]).filter
          (fun p => decide (p.1 = strL "G")) =
        [(strL "G", [(Key.Simple (strL "t"), Value.String (strL "u"))])]
    ∧ parse_desktop_entry (strL "[G]\np=q\n[H]\nr=s\n[G]\nt=u") =
        .ok [] { groups :=
          [(strL "G", [(Key.Simple (strL "t"), Value.String (strL "u"))]),
           (strL "H", [(Key.Simple (strL "r"), Value.String (strL "s"))])] } :=
  spec_C3_amended_thm [(strL "G", [])] (strL "G")
    [(Key.Simple (strL "t"), Value.String (strL "u"))] (by decide) (by decide)

/-- Claim C4: inserting the same key twice into an entry map (as the fold
does for two entry lines with equal keys inside one group) leaves exactly
one entry for that key, holding the later value, at the position the first
insertion established; the other entries and their order are untouched and
no duplicate is created. -/
theorem spec_C4_overwrite_in_place (m : EntryMap) (k : Key) (v1 v2 : Value)
    (hnd : (m.map Prod.fst).Nodup) :
    (indexInsert (indexInsert m k v1) k v2).filter (fun p => decide (p.1 = k)) = [(k, v2)]
    ∧ (indexInsert (indexInsert m k v1) k v2).filter (fun p => !decide (p.1 = k))
        = m.filter (fun p => !decide (p.1 = k))
    ∧ (indexInsert (indexInsert m k v1) k v2).findIdx (fun p => decide (p.1 = k))
        = (indexInsert m k v1).findIdx (fun p => decide (p.1 = k))
    ∧ (indexInsert (indexInsert m k v1) k v2).length = (indexInsert m k v1).length := by
  have hmem1 : k ∈ (indexInsert m k v1).map Prod.fst := mem_map_fst_indexInsert m k v1
  have hnd1 : ((indexInsert m k v1).map Prod.fst).Nodup := nodup_map_fst_indexInsert v1 hnd
  have h2 : indexInsert (indexInsert m k v1) k v2 =
      (indexInsert m k v1).map (fun p => if p.1 = k then (p.1, v2) else p) :=
    indexInsert_of_mem v2 hmem1
  refine ⟨?_, ?_, ?_, ?_⟩
  · rw [h2]
    exact filter_key_upd v2 hnd1 hmem1
  · rw [h2, filter_ne_upd]
    by_cases h : k ∈ m.map Prod.fst
    · rw [indexInsert_of_mem v1 h, filter_ne_upd]
    · rw [indexInsert_of_not_mem v1 h, List.filter_append]
      simp
  · rw [h2, findIdx_upd]
  · rw [h2, List.length_map]

/-- Witness for claim C4: the duplicate key `k` of one group ends up as a
single entry holding the later value. -/
theorem spec_C4_witness :
    (indexInsert (indexInsert ([] : EntryMap) (Key.Simple (strL "k"))
        (Value.String (strL "a"))) (Key.Simple (strL "k"))
        (Value.String (strL "b"))).filter
      (fun p => decide (p.1 = Key.Simple (strL "k"))) =
        [(Key.Simple (strL "k"), Value.String (strL "b"))]
    ∧ (indexInsert (indexInsert ([] : EntryMap) (Key.Simple (strL "k"))
        (Value.String (strL "a"))) (Key.Simple (strL "k"))
        (Value.String (strL "b"))).filter
      (fun p => !decide (p.1 = Key.Simple (strL "k"))) =
        ([] : EntryMap).filter (fun p => !decide (p.1 = Key.Simple (strL "k")))
    ∧ (indexInsert (indexInsert ([] : EntryMap) (Key.Simple (strL "k"))
        (Value.String (strL "a"))) (Key.Simple (strL "k"))
        (Value.String (strL "b"))).findIdx
      (fun p => decide (p.1 = Key.Simple (strL "k"))) =
        (indexInsert ([] : EntryMap) (Key.Simple (strL "k"))
          (Value.String (strL "a"))).findIdx
          (fun p => decide (p.1 = Key.Simple (strL "k")))
    ∧ (indexInsert (indexInsert ([] : EntryMap) (Key.Simple (strL "k"))
        (Value.String (strL "a"))) (Key.Simple (strL "k"))
        (Value.String (strL "b"))).length =
        (indexInsert ([] : EntryMap) (Key.Simple (strL "k"))
          (Value.String (strL "a"))).length :=
  spec_C4_overwrite_in_place [] (Key.Simple (strL "k")) (Value.String (strL "a"))
    (Value.String (strL "b")) (by decide)

/-- Claim C9 counterexample: a root unit value (and therefore a root
`None`, which delegates to it) is accepted by the top-level serializer
with no output, instead of being rejected with an `ExpectedMap`-class
error as the claim states. -/
theorem spec_C9_counterexample :
    HeaderMapSerializer.serialize_unit [] = .ok ([] : List Char)
    ∧ HeaderMapSerializer.serialize_none [] = .ok ([] : List Char) :=
  ⟨rfl, rfl⟩

/-- Claim C9 as amended: every bare scalar at the root (bool, the integer
types, the float types, char, string, bytes) and a root unit enum variant
are rejected with `ExpectedMap`, but a root unit and a root `None` are
accepted and write nothing (and a root unit struct emits just a header). -/
theorem spec_C9_amended_thm (output : List Char) :
    (∀ v, HeaderMapSerializer.serialize_bool output v = .error .ExpectedMap)
    ∧ (∀ v, HeaderMapSerializer.serialize_i8 output v = .error .ExpectedMap)
    ∧ (∀ v, HeaderMapSerializer.serialize_i16 output v = .error .ExpectedMap)
    ∧ (∀ v, HeaderMapSerializer.serialize_i32 output v = .error .ExpectedMap)
    ∧ (∀ v, HeaderMapSerializer.serialize_i64 output v = .error .ExpectedMap)
    ∧ (∀ v, HeaderMapSerializer.serialize_u8 output v = .error .ExpectedMap)
    ∧ (∀ v, HeaderMapSerializer.serialize_u16 output v = .error .ExpectedMap)
    ∧ (∀ v, HeaderMapSerializer.serialize_u32 output v = .error .ExpectedMap)
    ∧ (∀ v, HeaderMapSerializer.serialize_u64 output v = .error .ExpectedMap)
    ∧ (∀ v, HeaderMapSerializer.serialize_f32 output v = .error .ExpectedMap)
    ∧ (∀ v, HeaderMapSerializer.serialize_f64 output v = .error .ExpectedMap)
    ∧ (∀ v, HeaderMapSerializer.serialize_char output v = .error .ExpectedMap)
    ∧ (∀ v, HeaderMapSerializer.serialize_str output v = .error .ExpectedMap)
    ∧ (∀ v, HeaderMapSerializer.serialize_bytes output v = .error .ExpectedMap)
    ∧ (∀ name idx variant,
        HeaderMapSerializer.serialize_unit_variant output name idx variant =
          .error .ExpectedMap)
    ∧ HeaderMapSerializer.serialize_unit output = .ok output
    ∧ HeaderMapSerializer.serialize_none output = .ok output
    ∧ (∀ name, HeaderMapSerializer.serialize_unit_struct output name =
        .ok (emit_header output name)) :=
  ⟨fun _ => rfl, fun _ => rfl, fun _ => rfl, fun _ => rfl, fun _ => rfl, fun _ => rfl,
   fun _ => rfl, fun _ => rfl, fun _ => rfl, fun _ => rfl, fun _ => rfl, fun _ => rfl,
   fun _ => rfl, fun _ => rfl, fun _ _ _ => rfl, rfl, rfl, fun _ => rfl⟩

/-- Claim C5 counterexample: the value text `truex` is neither exactly
`true` nor exactly `false`, yet it parses as a Boolean, because nom
`map_parser` discards what the inner tag leaves unconsumed. -/
theorem spec_C5_counterexample :
    parse_value (strL "truex") = .ok [] (Value.Boolean true)
    ∧ strL "truex" ≠ strL "true" ∧ strL "truex" ≠ strL "false" := by
  refine ⟨by decide, by decide, by decide⟩

/-- Claim C5 as amended: the kinds are tried in the order Boolean, Numeric,
String, LocaleString, and the Boolean alternative matches exactly when the
line starts with the literal `true` or `false` (the rest of the line being
discarded); the four example values parse as claimed. -/
theorem spec_C5_amended_thm :
    (∀ i rest line r b, not_line_ending i = .ok rest line →
        parse_value i = .ok r (Value.Boolean b) →
        r = rest
        ∧ (b = true → ∃ s, line = strL "true" ++ s)
        ∧ (b = false → ∃ s, line = strL "false" ++ s))
    ∧ (∀ i rest line, not_line_ending i = .ok rest line →
        (∃ s, line = strL "true" ++ s) →
        parse_value i = .ok rest (Value.Boolean true))
    ∧ (∀ i rest line, not_line_ending i = .ok rest line →
        (∃ s, line = strL "false" ++ s) → (¬ ∃ s, line = strL "true" ++ s) →
        parse_value i = .ok rest (Value.Boolean false))
    ∧ parse_value (strL "true") = .ok [] (Value.Boolean true)
    ∧ parse_value (strL "1") = .ok [] (Value.Numeric (F32.num { num := 1, den := 1 }))
    ∧ parse_value (strL "4.20") = .ok [] (Value.Numeric (F32.num { num := 21, den := 5 }))
    ∧ parse_value (strL "fooview") = .ok [] (Value.String (strL "fooview")) := by
  refine ⟨?_, ?_, ?_, by decide, by decide, by decide, by decide⟩
  · intro i rest line r b hline hval
    simp only [parse_value, parse_boolean, hline] at hval
    cases ht : tagP (strL "true") line with
    | ok r1 m1 =>
      simp only [ht] at hval
      injection hval with h1 h2
      injection h2 with h3
      refine ⟨h1.symm, fun _ => ⟨r1, (tagP_ok_elim ht).1⟩, fun hb => ?_⟩
      rw [← h3] at hb
      cases hb
    | fail => simp only [ht] at hval; cases hval
    | panicked => simp only [ht] at hval; cases hval
    | err =>
      simp only [ht] at hval
      cases hf : tagP (strL "false") line with
      | ok r1 m1 =>
        simp only [hf] at hval
        injection hval with h1 h2
        injection h2 with h3
        refine ⟨h1.symm, fun hb => ?_, fun _ => ⟨r1, (tagP_ok_elim hf).1⟩⟩
        rw [← h3] at hb
        cases hb
      | fail => simp only [hf] at hval; cases hval
      | panicked => simp only [hf] at hval; cases hval
      | err =>
        simp only [hf] at hval
        exfalso
        cases hn : parse_numeric i with
        | ok r1 f => simp only [hn] at hval; injection hval with h1 h2; cases h2
        | fail => simp only [hn] at hval; cases hval
        | panicked => simp only [hn] at hval; cases hval
        | err =>
          simp only [hn] at hval
          cases hs : parse_string i with
          | ok r1 s1 => simp only [hs] at hval; injection hval with h1 h2; cases h2
          | fail => simp only [hs] at hval; cases hval
          | panicked => simp only [hs] at hval; cases hval
          | err =>
            simp only [hs] at hval
            cases hl : parse_local_string i with
            | ok r1 s1 => simp only [hl] at hval; injection hval with h1 h2; cases h2
            | fail => simp only [hl] at hval; cases hval
            | panicked => simp only [hl] at hval; cases hval
            | err => simp only [hl] at hval; cases hval
  · intro i rest line hline hpre
    obtain ⟨s, rfl⟩ := hpre
    simp only [parse_value, parse_boolean, hline, tagP_of_append]
  · intro i rest line hline hpre hnotrue
    obtain ⟨s, rfl⟩ := hpre
    have ht : tagP (strL "true") (strL "false" ++ s) = .err :=
      tagP_err_of_no_prefix (fun u hu => hnotrue ⟨u, hu⟩)
    simp only [parse_value, parse_boolean, hline, ht, tagP_of_append]

/-- Witness for the amended claim C5: the general Boolean characterization
applied to the line `truex`. -/
theorem spec_C5_amended_witness :
    ([] : Input) = [] ∧ (true = true → ∃ s, strL "truex" = strL "true" ++ s)
      ∧ (true = false → ∃ s, strL "truex" = strL "false" ++ s) :=
  spec_C5_amended_thm.1 (strL "truex") [] (strL "truex") [] true (by decide) (by decide)

/-- Claim C6 counterexample: a plain-string value whose decoded text is not
ASCII is not a fatal parse error; the String alternative fails recoverably
and the value is accepted as a LocaleString, both at value level and in a
whole document. -/
theorem spec_C6_counterexample :
    parse_value (strL "héllo") = .ok [] (Value.LocaleString (strL "héllo"))
    ∧ parse_desktop_entry (strL "[A]\nv=héllo") =
        .ok [] { groups := [(strL "A",
            [(Key.Simple (strL "v"), Value.LocaleString (strL "héllo"))])] } := by
  refine ⟨by decide, by decide⟩

/-- Claim C6 as amended: for a value text that is neither Boolean nor
Numeric, whose escape decoding completes (the escape decoder can panic
instead on non-ASCII text mixed with escapes, see claim C7), and whose
fully decoded result contains a non-ASCII character, the plain-String
alternative fails with a recoverable error and the value is accepted as a
LocaleString (which has no ASCII restriction); the non-ASCII content
never makes the parse fail. -/
theorem spec_C6_amended_thm (i rest line s : List Char)
    (hb : parse_boolean i = .err) (hn : parse_numeric i = .err)
    (hline : not_line_ending i = .ok rest line)
    (hdec : parse_escaped_string line = .ok [] s)
    (hna : s.all isAsciiChar = false) :
    parse_string i = .err ∧ parse_value i = .ok rest (Value.LocaleString s) := by
  have hstr : parse_string i = .err := by
    simp [parse_string, hline, hdec, hna]
  have hloc : parse_local_string i = .ok rest s := by
    simp [parse_local_string, hline, hdec]
  refine ⟨hstr, ?_⟩
  simp [parse_value, hb, hn, hstr, hloc]

/-- Witness for the amended claim C6 at the value text `héllo`. -/
theorem spec_C6_amended_witness :
    parse_string (strL "héllo") = .err
    ∧ parse_value (strL "héllo") = .ok [] (Value.LocaleString (strL "héllo")) :=
  spec_C6_amended_thm (strL "héllo") [] (strL "héllo") (strL "héllo")
    (by decide) (by decide) (by decide) (by decide) (by decide)

/-- Claim C7 (code bug): on all-ASCII value text the decoder behaves as
the claim states - `foo \nbar` and `foo\;bar` decode as claimed and the
bad escape in `foo \xbar` is a fatal error for the value and the whole
document - but the scan uses the character index of the first backslash
as a byte index into the UTF-8 buffer, so a non-ASCII character before
the first backslash breaks the claimed single-scan semantics: the value
text consisting of two e-acutes, a backslash and an `n` decodes to one
e-acute and two newlines instead of two e-acutes and one newline, and
one e-acute followed by backslash `n` panics slicing at a non-character
boundary - with a bad escape further on, the panic even precedes the
claimed fatal escape error. -/
theorem spec_C7_escape_indexing_bug :
    parse_escaped_string (strL "foo \\nbar") = .ok [] (strL "foo \nbar")
    ∧ parse_value (strL "foo \\nbar") = .ok [] (Value.String (strL "foo \nbar"))
    ∧ parse_value (strL "foo\\;bar") = .ok [] (Value.String (strL "foo;bar"))
    ∧ parse_value (strL "foo \\xbar") = .fail
    ∧ parse_desktop_entry (strL "[A]\nv=foo \\xbar") = .fail
    ∧ parse_escaped_string (strL "éé\\n") = .ok [] (strL "é\n\n")
    ∧ strL "é\n\n" ≠ strL "éé\n"
    ∧ parse_escaped_string (strL "é\\n") = .panicked
    ∧ parse_value (strL "é\\n") = .panicked
    ∧ parse_value (strL "é\\n\\x") = .panicked
    ∧ parse_desktop_entry (strL "[A]\nv=é\\n") = .panicked := by
  decide

/-- If the line fold succeeds, every line it consumed was accepted by
`parse_line`: folding from `i` to a remainder `r` whose lines all match
means all lines of `i` match. -/
theorem foldLoop_lines (fuel : Nat) :
    ∀ i he acc r acc', foldLoop fuel i he acc = .ok r acc' →
      LinesAllMatch r → LinesAllMatch i := by
  induction fuel with
  | zero =>
    intro i he acc r acc' h
    simp [foldLoop] at h
  | succ n ih =>
    intro i he acc r acc' h hr
    simp only [foldLoop] at h
    cases hpl : parse_line i with
    | err =>
      simp only [hpl] at h
      injection h with h1 h2
      rw [h1]
      exact hr
    | fail =>
      simp only [hpl] at h
      cases h
    | panicked =>
      simp only [hpl] at h
      cases h
    | ok i1 line =>
      simp only [hpl] at h
      split at h
      · injection h with h1 h2
        rw [h1]
        exact hr
      · split at h
        · cases h
        · split at h
          · exact LinesAllMatch.cons i i1 line hpl (ih i1 _ _ r acc' h hr)
          · cases h

/-- Claim C8: the parser consumes the entire input or does not succeed:
whenever `parse_desktop_entry` returns a document, the leftover input is
empty and the whole input was a sequence of lines each matched by one of
the line rules; contrapositively, an input on which the line iteration
gets stuck (it holds a line matched by no rule) never yields a document. -/
theorem spec_C8_whole_input (input rest : Input) (doc : DesktopEntry)
    (h : parse_desktop_entry input = .ok rest doc) :
    rest = [] ∧ LinesAllMatch input := by
  unfold parse_desktop_entry at h
  cases hf : foldLoop (input.length + 1) input true ({ groups := [] }, none, 0) with
  | ok r acc =>
    obtain ⟨document, group, count⟩ := acc
    rw [hf] at h
    cases r with
    | nil =>
      simp only [eofP] at h
      injection h with h1 h2
      exact ⟨h1.symm, foldLoop_lines _ _ _ _ _ _ hf LinesAllMatch.nil⟩
    | cons c r2 =>
      simp only [eofP] at h
      cases h
  | err =>
    rw [hf] at h
    cases h
  | fail =>
    rw [hf] at h
    cases h
  | panicked =>
    rw [hf] at h
    cases h

/-- Witness for claim C8 on the one-line input containing only a group
header. -/
theorem spec_C8_witness :
    ([] : Input) = [] ∧ LinesAllMatch (strL "[A]") :=
  spec_C8_whole_input (strL "[A]") [] { groups := [(strL "A", [])] } (by decide)

/-- Parsing an entry whose key is followed directly by `=`: the key is read
as a simple key and the value parser runs on the rest of the line. -/
theorem parse_entry_shape (k rest : List Char) (hne : k ≠ [])
    (hk : k.all isKeyChar = true) :
    parse_entry (k ++ '=' :: rest) =
      (match parse_value (rest.dropWhile isSpaceTab) with
       | .ok i5 v => .ok i5 (Key.Simple k, v)
       | .err => .err
       | .fail => .fail
       | .panicked => .panicked) := by
  obtain ⟨hts, hds⟩ :=
    takeWhile_append_stop rest hk (by decide : isKeyChar '=' = false)
  have hkE : k.isEmpty = false := by
    cases k with
    | nil => exact absurd rfl hne
    | cons a b => rfl
  have hkp : parse_key_part (k ++ '=' :: rest) = .ok ('=' :: rest) k := by
    simp [parse_key_part, hts, hds, hkE]
  have hkey : parse_key (k ++ '=' :: rest) = .ok ('=' :: rest) (Key.Simple k) := by
    simp [parse_key, hkp, charP]
  simp only [parse_entry, hkey]
  simp [List.dropWhile_cons, isSpaceTab, charP]

/-- Claim C10: an entry line with an empty value is accepted, both at end
of input and before a line ending, and yields the simple key with an empty
plain-String value. -/
theorem spec_C10_empty_value (k : List Char) (hne : k ≠ [])
    (hk : k.all isKeyChar = true) :
    parse_entry (k ++ ['=']) = .ok [] (Key.Simple k, Value.String [])
    ∧ parse_line (k ++ ['=']) = .ok [] (Line.Entry (Key.Simple k) (Value.String []))
    ∧ ∀ t, parse_line (k ++ '=' :: '\n' :: t) =
        .ok t (Line.Entry (Key.Simple k) (Value.String [])) := by
  have hpv0 : parse_value ([] : Input) = .ok [] (Value.String []) := by decide
  have hpvn : ∀ t : List Char, parse_value ('\n' :: t) = .ok ('\n' :: t) (Value.String []) := by
    intro t
    have hnle : not_line_ending ('\n' :: t) = .ok ('\n' :: t) [] := by
      simp [not_line_ending, List.takeWhile_cons, List.dropWhile_cons]
    have ht : tagP (strL "true") ([] : Input) = .err := by decide
    have hf : tagP (strL "false") ([] : Input) = .err := by decide
    have hb : parse_boolean ('\n' :: t) = .err := by
      simp only [parse_boolean, hnle, ht, hf]
    have hfl : floatP ([] : Input) = .err := by decide
    have hnum : parse_numeric ('\n' :: t) = .err := by
      simp only [parse_numeric, hnle, hfl]
    have hes : parse_escaped_string ([] : Input) = .ok [] [] := by decide
    have hstr : parse_string ('\n' :: t) = .ok ('\n' :: t) [] := by
      simp [parse_string, hnle, hes]
    simp only [parse_value, hb, hnum, hstr]
  have hent0 : parse_entry (k ++ ['=']) = .ok [] (Key.Simple k, Value.String []) := by
    rw [parse_entry_shape k [] hne hk]
    simp [hpv0]
  have hentn : ∀ t, parse_entry (k ++ '=' :: '\n' :: t) =
      .ok ('\n' :: t) (Key.Simple k, Value.String []) := by
    intro t
    rw [parse_entry_shape k ('\n' :: t) hne hk]
    have hdw : ('\n' :: t).dropWhile isSpaceTab = '\n' :: t := by
      simp [List.dropWhile_cons, isSpaceTab]
    simp only [hdw, hpvn]
  obtain ⟨c, k2, rfl⟩ : ∃ c k2, k = c :: k2 := by
    cases k with
    | nil => exact absurd rfl hne
    | cons a b => exact ⟨a, b, rfl⟩
  have hc : isKeyChar c = true := by
    simp only [List.all_cons, Bool.and_eq_true] at hk
    exact hk.1
  have hcne : c ≠ '#' := fun h => absurd (h ▸ hc) (by decide)
  have hcnb : c ≠ '[' := fun h => absurd (h ▸ hc) (by decide)
  have hcom : ∀ r : List Char, parse_comment (c :: r) = .err := by
    intro r
    simp [parse_comment, charP, hcne]
  have hhdr : ∀ r : List Char, parse_group_header (c :: r) = .err := by
    intro r
    simp [parse_group_header, charP, hcnb]
  have hle0 : parse_end_of_line ([] : Input) = .ok [] [] := by decide
  have hlen : ∀ t : List Char, parse_end_of_line ('\n' :: t) = .ok t ['\n'] := by
    intro t
    rfl
  refine ⟨hent0, ?_, ?_⟩
  · have hct : (c :: k2) ++ ['='] = c :: (k2 ++ ['=']) := List.cons_append c k2 ['=']
    rw [hct] at hent0 ⊢
    simp only [parse_line, hcom, hhdr, hent0, hle0]
  · intro t
    have hct : (c :: k2) ++ '=' :: '\n' :: t = c :: (k2 ++ '=' :: '\n' :: t) :=
      List.cons_append c k2 ('=' :: '\n' :: t)
    have h1 := hentn t
    rw [hct] at h1 ⊢
    simp only [parse_line, hcom, hhdr, h1, hlen]

/-- Witness for claim C10 at the key `Name`. -/
theorem spec_C10_witness :
    parse_entry (strL "Name" ++ ['=']) = .ok [] (Key.Simple (strL "Name"), Value.String [])
    ∧ parse_line (strL "Name" ++ ['=']) =
        .ok [] (Line.Entry (Key.Simple (strL "Name")) (Value.String []))
    ∧ ∀ t, parse_line (strL "Name" ++ '=' :: '\n' :: t) =
        .ok t (Line.Entry (Key.Simple (strL "Name")) (Value.String [])) :=
  spec_C10_empty_value (strL "Name") (by decide) (by decide)

/-- Witness for the amended claim C9 at an empty output buffer. -/
theorem spec_C9_witness :
    HeaderMapSerializer.serialize_bool [] true = .error .ExpectedMap
    ∧ HeaderMapSerializer.serialize_unit ([] : List Char) = .ok [] :=
  ⟨(spec_C9_amended_thm []).1 true, (spec_C9_amended_thm []).2.2.2.2.2.2.2.2.2.2.2.2.2.2.2.1⟩

end Xdg
